import Mathlib

/-!
Verification of the streaming subsystem of LinyapsManager
(`internal/streaming/streaming.go`), shallowly embedded in Lean.

Bytes are modelled as `Nat` (newline = 10, carriage return = 13,
as compared against by `scanLinesCR`), byte strings as `List Nat`.
Concurrent goroutine execution is modelled by trace relations
(interleavings of the per-stream event sequences), and the `select`
loop of `Receiver.WaitForOperation` by an inductive run relation.
-/

namespace Streaming

/-- A byte is a chunk boundary when it is a newline or a carriage return
(the `b == '\n' || b == '\r'` test inside `scanLinesCR`). -/
def isBoundary (b : Nat) : Bool := b == 10 || b == 13

/-- Index of the first boundary byte in the data, mirroring the
`for i, b := range data` loop of `scanLinesCR`. -/
def findBoundary : List Nat → Option Nat
  | [] => none
  | b :: rest => if isBoundary b then some 0 else (findBoundary rest).map (fun i => i + 1)

/-- Function `scanLinesCR(data, atEOF)` from streaming.go, returning
`(advance, token?)`: split at the first newline or carriage return,
consuming the boundary byte without including it in the token; at EOF any
remaining data is returned as a final token; otherwise request more data. -/
def scanLinesCR (data : List Nat) (atEOF : Bool) : Nat × Option (List Nat) :=
  match findBoundary data with
  | some i => (i + 1, some (data.take i))
  | none => if atEOF && data.length != 0 then (data.length, some data) else (0, none)

/-- The maximum token size configured by `streamReader`:
`scanner.Buffer(make([]byte, 0, 64*1024), 1024*1024)`. -/
def maxTokenSize : Nat := 1024 * 1024

/-- One run of `bufio.Scanner` driving `scanLinesCR` (as `streamReader`
does), expressed over the whole remaining input.  The scanner buffers at
most `maxTok` bytes, so a token is produced only when strictly fewer than
`maxTok` of its bytes have to sit in the buffer before the event completing
it arrives: a boundary token needs `tok.length + 1` buffered bytes
(so `tok.length + 1 ≤ maxTok`), and an end-of-stream residue can be flushed
only while the buffer is not yet full when the EOF-observing zero-byte read
happens (`tok.length < maxTok`: with the buffer holding `maxTok` bytes, the
buffer-full check fires `ErrTooLong` before EOF can be observed on a pipe
or pty).  Both conditions amount to `tok.length < maxTok`.  Otherwise the
scanner stops with `ErrTooLong` and no further token is produced
(`streamReader` ignores scanner errors and simply stops reading the
stream).  The fuel argument only bounds the recursion; every produced token
advances by at least one byte, so fuel `input.length` is always
sufficient. -/
def scannerRunFuel (maxTok : Nat) : Nat → List Nat → List (List Nat)
  | 0, _ => []
  | fuel + 1, input =>
    match scanLinesCR input true with
    | (adv, some tok) =>
      if tok.length < maxTok then tok :: scannerRunFuel maxTok fuel (input.drop adv) else []
    | (_, none) => []

/-- The token sequence the scanner inside `streamReader` produces for one
complete stream. -/
def scannerRun (maxTok : Nat) (input : List Nat) : List (List Nat) :=
  scannerRunFuel maxTok input.length input

/-- The chunks `streamReader` emits for one stream: every scanned token with
exactly one newline appended (`line := scanner.Text() + "\n"`). -/
def streamReaderChunks (input : List Nat) : List (List Nat) :=
  (scannerRun maxTokenSize input).map (fun t => t ++ [10])

/-- The segment sequence of a byte stream as the specification describes it:
maximal runs between boundary bytes, the final unterminated residue included
when non-empty.  This is the splitter with no buffer bound; it is the
reference point for the buffer-bound claim. -/
def specSegmentsFuel : Nat → List Nat → List (List Nat)
  | 0, _ => []
  | fuel + 1, input =>
    match scanLinesCR input true with
    | (adv, some tok) => tok :: specSegmentsFuel fuel (input.drop adv)
    | (_, none) => []

/-- Segment sequence of a whole stream (specification-side reference). -/
def specSegments (input : List Nat) : List (List Nat) :=
  specSegmentsFuel input.length input

/-- ASCII bytes of a string literal (every text in the claims is ASCII). -/
def strBytes (s : String) : List Nat := s.toList.map Char.toNat

/-- Outcome of `cmd.Wait()` as the runners inspect it:
either no error, an `*exec.ExitError` (the process ran and terminated
unsuccessfully; `code` is `ExitCode()`, which is the native exit status when
the process exited and `-1` when it was terminated by a signal), or any other
error (pipe copy failure, context cancellation before start, ...). -/
inductive WaitErr where
  | ok : WaitErr
  | exitError (code : Int) (msg : String) : WaitErr
  | otherError (msg : String) : WaitErr
deriving DecidableEq

/-- Which `WaitErr` values the Go runtime can actually hand back:
`cmd.Wait()` returns an `*exec.ExitError` only for an unsuccessful
termination, so `ExitCode()` is a positive native status or `-1` (signal
kill); every Go `error` has a non-empty `Error()` string. -/
def WaitErr.valid : WaitErr → Prop
  | .ok => True
  | .exitError code msg => (1 ≤ code ∨ code = -1) ∧ msg ≠ ""
  | .otherError msg => msg ≠ ""

/-- The `(exitCode, errorMsg)` pair computed by the finalization block that
all three runners share (streaming.go lines 115-125, 153-163, 210-220):
`exitCode := 0; errorMsg := ""` then, on error, `*exec.ExitError` yields
`exitCode = exitErr.ExitCode()` (and leaves `errorMsg` empty), any other
error yields `exitCode = -1` and `errorMsg = err.Error()`. -/
def completionRecord : WaitErr → Int × String
  | .ok => (0, "")
  | .exitError code _ => (code, "")
  | .otherError msg => (-1, msg)

/-- One emitted D-Bus streaming event: `Output(operationID, data, isStderr)`
or `Complete(operationID, exitCode, errorMsg)`. -/
inductive Event where
  | output (opID : String) (data : List Nat) (isStderr : Bool) : Event
  | complete (opID : String) (exitCode : Int) (errorMsg : String) : Event
deriving DecidableEq

/-- Whether an event is an Output event. -/
def Event.isOutput : Event → Bool
  | .output _ _ _ => true
  | .complete _ _ _ => false

/-- Whether an event is a Complete event. -/
def Event.isComplete : Event → Bool
  | .output _ _ _ => false
  | .complete _ _ _ => true

/-- The Output events one `streamReader(emitter, operationID, r, isStderr)`
call emits for a stream whose full byte content is `input`: one event per
chunk, in stream order. -/
def streamEvents (opID : String) (isStderr : Bool) (input : List Nat) : List Event :=
  (streamReaderChunks input).map (fun c => Event.output opID c isStderr)

/-- Relation `Interleave xs ys zs`: `zs` is an order-preserving merge of `xs` and
`ys`.  This models the possible emission schedules of two concurrently
running reader goroutines whose individual emissions are serialized by the
Emitter mutex. -/
inductive Interleave : List Event → List Event → List Event → Prop where
  | nil : Interleave [] [] []
  | left {x xs ys zs} : Interleave xs ys zs → Interleave (x :: xs) ys (x :: zs)
  | right {y xs ys zs} : Interleave xs ys zs → Interleave xs (y :: ys) (y :: zs)

/-- The emission traces a successfully started pipe-mode operation
(`RunCommandStreaming`) can produce: the stdout-reader goroutine emits
`streamEvents opID false outB`, the stderr-reader goroutine emits
`streamEvents opID true errB`, their emissions interleave arbitrarily; the
finalizing goroutine first `wg.Wait()`s for both readers, then computes the
completion record from `cmd.Wait()` and emits the single Complete event. -/
def pipeTrace (opID : String) (outB errB : List Nat) (w : WaitErr) (tr : List Event) : Prop :=
  ∃ l, Interleave (streamEvents opID false outB) (streamEvents opID true errB) l ∧
    tr = l ++ [Event.complete opID (completionRecord w).1 (completionRecord w).2]

/-- The emission trace of a successfully started pty-mode operation
(`RunCommandStreamingPTY`): one reader over the combined pty stream, always
tagged `isStderr = false`, then the single Complete event after the reader
returns and `cmd.Wait()` is inspected. -/
def ptyTrace (opID : String) (outB : List Nat) (w : WaitErr) (tr : List Event) : Prop :=
  tr = streamEvents opID false outB ++
    [Event.complete opID (completionRecord w).1 (completionRecord w).2]

/-- The `for scanner.Scan()` loop of `streamReader` with the result of each
`emitter.EmitOutput` call made explicit: `oracle` lists the success of each
successive broadcast attempt (`true` = the D-Bus emit returned nil).  On
failure the error is written to the process's stderr log and the loop
continues with the next chunk — the continuation is identical in both
branches, which is exactly the swallow-and-continue policy. -/
def streamReaderAttempts (opID : String) (isStderr : Bool) :
    List Bool → List (List Nat) → List Event
  | _, [] => []
  | [], c :: cs =>
    Event.output opID c isStderr :: streamReaderAttempts opID isStderr [] cs
  | ok :: rest, c :: cs =>
    if ok then Event.output opID c isStderr :: streamReaderAttempts opID isStderr rest cs
    else
      -- EmitOutput failed: "Log error but continue streaming"
      Event.output opID c isStderr :: streamReaderAttempts opID isStderr rest cs

/-- Trace relation `pipeTrace` with broadcast failures made explicit: `o1`/`o2` give the
success of each EmitOutput attempt of the stdout/stderr reader, and
`completeOk` the success of the final EmitComplete call (whose return value
line 127 discards).  The attempted event sequence is what is related. -/
def pipeTraceFaulty (opID : String) (outB errB : List Nat) (w : WaitErr)
    (o1 o2 : List Bool) (_completeOk : Bool) (tr : List Event) : Prop :=
  ∃ l, Interleave (streamReaderAttempts opID false o1 (streamReaderChunks outB))
      (streamReaderAttempts opID true o2 (streamReaderChunks errB)) l ∧
    tr = l ++ [Event.complete opID (completionRecord w).1 (completionRecord w).2]

/-- Function `GenerateOperationID` for a counter value `id`:
`fmt.Sprintf("op-%d-%d", os.Getpid(), id)`. -/
def GenerateOperationID (pid : Nat) (id : Nat) : String :=
  "op-" ++ Nat.repr pid ++ "-" ++ Nat.repr id

/-- The modulus of the `uint64` counter `operationCounter`. -/
def uint64Size : Nat := 2 ^ 64

/-- The counter value `atomic.AddUint64(&operationCounter, 1)` hands to the
k-th call (1-indexed, in linearization order of the atomic increments):
the counter starts at 0 and wraps at `2^64`. -/
def counterValue (k : Nat) : Nat := k % uint64Size

/-- The operation ID returned by the k-th `GenerateOperationID()` call of a
process with id `pid`. -/
def opIDAtCall (pid k : Nat) : String := GenerateOperationID pid (counterValue k)

/-- How one start attempt of a pipe-mode runner unfolds at the OS boundary:
`cmd.StdoutPipe()` fails, `cmd.StderrPipe()` fails, `cmd.Start()` fails
(each with the Go error message `msg`), or the process starts and then
produces the given stdout/stderr byte streams and `cmd.Wait()` outcome. -/
inductive SpawnOutcome where
  | stdoutPipeErr (msg : String) : SpawnOutcome
  | stderrPipeErr (msg : String) : SpawnOutcome
  | startErr (msg : String) : SpawnOutcome
  | started (outB errB : List Nat) (w : WaitErr) : SpawnOutcome
deriving DecidableEq

/-- A start attempt in which the process could not be spawned. -/
def SpawnOutcome.isFailure : SpawnOutcome → Prop
  | .started _ _ _ => False
  | _ => True

/-- The synchronous return value of `RunCommandStreaming` (lines 76-131):
the `(string, error)` pair.  On any pipe/start failure it returns
`("", fmt.Errorf(...))` before any goroutine is spawned; on success it
returns `(operationID, nil)` immediately. -/
def runCommandStreamingResult (opID : String) (s : SpawnOutcome) : String × Option String :=
  match s with
  | .stdoutPipeErr msg => ("", some ("failed to create stdout pipe: " ++ msg))
  | .stderrPipeErr msg => ("", some ("failed to create stderr pipe: " ++ msg))
  | .startErr msg => ("", some ("failed to start command: " ++ msg))
  | .started _ _ _ => (opID, none)

/-- The event traces a `RunCommandStreaming` attempt can emit.  The early
returns on pipe/start failure happen before the streaming goroutine is
spawned, so a failed attempt emits nothing. -/
def runCommandStreamingEvents (opID : String) (s : SpawnOutcome) (tr : List Event) : Prop :=
  match s with
  | .started outB errB w => pipeTrace opID outB errB w tr
  | _ => tr = []

/-- The synchronous return value of `RunCommandStreamingSync`
(lines 173-224): the `(string, int, error)` triple.  Unlike the async
runner, every early failure return is `return operationID, -1, err` — the
already-generated operation ID is handed to the caller together with the
error. -/
def runCommandStreamingSyncResult (opID : String) (s : SpawnOutcome) :
    String × Int × Option String :=
  match s with
  | .stdoutPipeErr msg => (opID, -1, some ("failed to create stdout pipe: " ++ msg))
  | .stderrPipeErr msg => (opID, -1, some ("failed to create stderr pipe: " ++ msg))
  | .startErr msg => (opID, -1, some ("failed to start command: " ++ msg))
  | .started _ _ w => (opID, (completionRecord w).1, none)

/-- The event traces a `RunCommandStreamingSync` attempt can emit: nothing
on a failed spawn (early return before any reader starts); the same
reader-interleaving-then-Complete shape as the async pipe runner otherwise. -/
def runCommandStreamingSyncEvents (opID : String) (s : SpawnOutcome) (tr : List Event) : Prop :=
  match s with
  | .started outB errB w => pipeTrace opID outB errB w tr
  | _ => tr = []

/-! Receiver side (`NewReceiver`, `WaitForOperation`, `Stop`). -/

/-- Constant `dbusconsts.ObjectPath`. -/
def objectPathConst : String := "/org/linglong_store/LinyapsManager"

/-- Constant `dbusconsts.Interface`. -/
def interfaceConst : String := "org.linglong_store.LinyapsManager"

/-- Name `dbusconsts.Interface + "." + dbusconsts.SignalOutput`. -/
def outputSignalName : String := interfaceConst ++ "." ++ "Output"

/-- Name `dbusconsts.Interface + "." + dbusconsts.SignalComplete`. -/
def completeSignalName : String := interfaceConst ++ "." ++ "Complete"

/-- The body of a received `dbus.Signal`, abstracting the dynamic Go
value slice: either three values of types
(string, string, bool), or three values of types (string, int32, string),
or anything for which the length/type assertions of `WaitForOperation`
fail. -/
inductive SigBody where
  | outputBody (opID : String) (data : String) (isStderr : Bool) : SigBody
  | completeBody (opID : String) (exitCode : Int) (errorMsg : String) : SigBody
  | malformed : SigBody
deriving DecidableEq

/-- A received `dbus.Signal`: its object path, member name, and body. -/
structure DSignal where
  path : String
  name : String
  body : SigBody
deriving DecidableEq

/-- The checks `WaitForOperation` performs on a signal before treating it as
a matching Output: path equals `dbusconsts.ObjectPath`, name equals the
Output signal name, the body type-asserts to (string, string, bool), and the
operation ID matches.  Returns the `(data, isStderr)` handed to `outputFn`. -/
def matchesOutput (op : String) (sig : DSignal) : Option (String × Bool) :=
  if sig.path = objectPathConst ∧ sig.name = outputSignalName then
    match sig.body with
    | .outputBody opID data isStderr => if opID = op then some (data, isStderr) else none
    | _ => none
  else none

/-- The checks `WaitForOperation` performs on a signal before treating it as
the matching Complete: path, name, body of types (string, int32, string),
matching operation ID.  Returns the `(int(exitCode), errorMsg)` result. -/
def matchesComplete (op : String) (sig : DSignal) : Option (Int × String) :=
  if sig.path = objectPathConst ∧ sig.name = completeSignalName then
    match sig.body with
    | .completeBody opID exitCode errorMsg =>
      if opID = op then some (exitCode, errorMsg) else none
    | _ => none
  else none

/-- One possible run of the `for/select` loop of
`WaitForOperation(operationID, outputFn)`.  `stopped` records whether
`Stop()` has closed `stopChan` (we model the runs from the moment the stop
state is fixed, over the signals still buffered in `signalChan`); `sigs` is
the buffered signal sequence; `outs` collects the `outputFn(data, isStderr)`
invocations; the result is the returned `(exitCode, errorMsg)` pair.  When
`stopChan` is closed its select case is always ready, and Go chooses
uniformly among ready cases, so the stop return is available at every
iteration — but so is the signal case while signals remain buffered. -/
inductive WaitRun (op : String) : Bool → List DSignal → List (String × Bool) →
    Int × String → Prop where
  | stopRet (sigs) : WaitRun op true sigs [] (-1, "receiver stopped")
  | completeRet {st sig sigs ec em} : matchesComplete op sig = some (ec, em) →
      WaitRun op st (sig :: sigs) [] (ec, em)
  | outputStep {st sig sigs outs r d b} : matchesOutput op sig = some (d, b) →
      WaitRun op st sigs outs r → WaitRun op st (sig :: sigs) ((d, b) :: outs) r
  | skipStep {st sig sigs outs r} : matchesOutput op sig = none →
      matchesComplete op sig = none →
      WaitRun op st sigs outs r → WaitRun op st (sig :: sigs) outs r

/-- The mutable state of a `Receiver` that `Stop()` touches: the `stopped`
flag, whether `stopChan` has been closed, and whether the signal channel is
still registered with the connection. -/
structure ReceiverState where
  stopped : Bool
  stopChanClosed : Bool
  subscribed : Bool
deriving DecidableEq

/-- The state of a freshly constructed `Receiver` (`NewReceiver`). -/
def ReceiverState.new : ReceiverState :=
  { stopped := false, stopChanClosed := false, subscribed := true }

/-- Method `Receiver.Stop()`: under the mutex, if not yet stopped, set `stopped`,
close `stopChan` and remove the signal registration; otherwise do nothing. -/
def ReceiverState.stop (r : ReceiverState) : ReceiverState :=
  if r.stopped then r
  else { stopped := true, stopChanClosed := true, subscribed := false }

/-- Reference decimal rendering of a natural number (proof-side definition
used to reason about `Nat.repr`, which models the `%d` verb of
`fmt.Sprintf`). -/
def rep10 (n : Nat) : List Char :=
  if n / 10 = 0 then [Nat.digitChar (n % 10)]
  else rep10 (n / 10) ++ [Nat.digitChar (n % 10)]
termination_by n
decreasing_by
  have h10 : n / 10 ≠ 0 := by assumption
  have hn : 0 < n := by
    rcases Nat.eq_zero_or_pos n with h | h
    · subst h; simp at h10
    · exact h
  exact Nat.div_lt_self hn (by omega)

/-- Value parsed back from a decimal digit list (left inverse of `rep10`,
proof-side definition). -/
def decimalVal (l : List Char) : Nat :=
  l.foldl (fun a c => a * 10 + (c.toNat - 48)) 0

/-! ## Lemmas about the splitter -/

theorem findBoundary_lt {l : List Nat} {i : Nat} (h : findBoundary l = some i) :
    i < l.length := by
  induction l generalizing i with
  | nil => simp [findBoundary] at h
  | cons b rest ih =>
    simp only [findBoundary] at h
    by_cases hb : isBoundary b
    · simp [hb] at h
      simp [← h]
    · simp only [hb, if_neg, Option.map_eq_some', Bool.false_eq_true, if_false] at h
      rcases h with ⟨j, hj, rfl⟩
      have := ih hj
      simp only [List.length_cons]
      omega

theorem findBoundary_take {l : List Nat} {i : Nat} (h : findBoundary l = some i) :
    ∀ b ∈ l.take i, isBoundary b = false := by
  induction l generalizing i with
  | nil => simp
  | cons b rest ih =>
    simp only [findBoundary] at h
    by_cases hb : isBoundary b
    · simp [hb] at h
      simp [← h]
    · simp only [hb, Bool.false_eq_true, if_false, Option.map_eq_some'] at h
      rcases h with ⟨j, hj, rfl⟩
      intro x hx
      rcases List.mem_cons.mp (by simpa using hx) with rfl | hx2
      · simpa using hb
      · exact ih hj x hx2

theorem findBoundary_none {l : List Nat} (h : findBoundary l = none) :
    ∀ b ∈ l, isBoundary b = false := by
  induction l with
  | nil => simp
  | cons b rest ih =>
    simp only [findBoundary] at h
    by_cases hb : isBoundary b
    · simp [hb] at h
    · simp only [hb, Bool.false_eq_true, if_false, Option.map_eq_none'] at h
      intro x hx
      rcases List.mem_cons.mp hx with rfl | hx2
      · simpa using hb
      · exact ih h x hx2

theorem findBoundary_none_of {l : List Nat} (h : ∀ b ∈ l, isBoundary b = false) :
    findBoundary l = none := by
  induction l with
  | nil => rfl
  | cons b rest ih =>
    have hb : isBoundary b = false := h b (List.mem_cons_self b rest)
    simp only [findBoundary, hb, Bool.false_eq_true, if_false, Option.map_eq_none']
    exact ih (fun x hx => h x (List.mem_cons_of_mem b hx))

theorem findBoundary_append {xs ys : List Nat} (h : ∀ b ∈ xs, isBoundary b = false) :
    findBoundary (xs ++ ys) = (findBoundary ys).map (fun i => i + xs.length) := by
  induction xs with
  | nil => simp
  | cons b rest ih =>
    have hb : isBoundary b = false := h b (List.mem_cons_self b rest)
    simp only [List.cons_append, findBoundary, hb, Bool.false_eq_true, if_false,
      List.append_eq]
    rw [ih (fun x hx => h x (List.mem_cons_of_mem b hx))]
    cases findBoundary ys with
    | none => rfl
    | some i =>
      simp only [Option.map_some', List.length_cons, Option.some.injEq]
      omega

theorem scanLinesCR_some {input : List Nat} {adv : Nat} {tok : List Nat}
    (h : scanLinesCR input true = (adv, some tok)) :
    0 < adv ∧ adv ≤ input.length ∧ adv ≤ tok.length + 1 := by
  unfold scanLinesCR at h
  cases hf : findBoundary input with
  | some i =>
    rw [hf] at h
    simp only [Prod.mk.injEq, Option.some.injEq] at h
    obtain ⟨rfl, rfl⟩ := h
    have hi := findBoundary_lt hf
    simp only [List.length_take]
    omega
  | none =>
    rw [hf] at h
    by_cases hl : input.length = 0
    · simp [hl] at h
    · simp only [Bool.true_and, hl, bne_iff_ne, ne_eq, not_false_eq_true, if_true,
        Prod.mk.injEq, Option.some.injEq] at h
      obtain ⟨rfl, rfl⟩ := h
      omega

theorem scanLinesCR_tok_no_boundary {input : List Nat} {adv : Nat} {tok : List Nat}
    (h : scanLinesCR input true = (adv, some tok)) :
    ∀ b ∈ tok, isBoundary b = false := by
  unfold scanLinesCR at h
  cases hf : findBoundary input with
  | some i =>
    rw [hf] at h
    simp only [Prod.mk.injEq, Option.some.injEq] at h
    rw [← h.2]
    exact findBoundary_take hf
  | none =>
    rw [hf] at h
    by_cases hl : input.length = 0
    · simp [hl] at h
    · simp only [Bool.true_and, hl, bne_iff_ne, ne_eq, not_false_eq_true, if_true,
        Prod.mk.injEq, Option.some.injEq] at h
      rw [← h.2]
      exact findBoundary_none hf

theorem scannerRunFuel_nil (maxTok f : Nat) : scannerRunFuel maxTok f [] = [] := by
  cases f with
  | zero => rfl
  | succ f => simp [scannerRunFuel, scanLinesCR, findBoundary]

theorem scannerRunFuel_congr {maxTok : Nat} :
    ∀ {f g : Nat} {input : List Nat}, input.length ≤ f → input.length ≤ g →
      scannerRunFuel maxTok f input = scannerRunFuel maxTok g input := by
  intro f
  induction f with
  | zero =>
    intro g input hf _
    have : input = [] := List.eq_nil_of_length_eq_zero (Nat.le_zero.mp hf)
    subst this
    rw [scannerRunFuel_nil, scannerRunFuel_nil]
  | succ f ih =>
    intro g input hf hg
    cases g with
    | zero =>
      have : input = [] := List.eq_nil_of_length_eq_zero (Nat.le_zero.mp hg)
      subst this
      rw [scannerRunFuel_nil, scannerRunFuel_nil]
    | succ g =>
      simp only [scannerRunFuel]
      cases h : scanLinesCR input true with
      | mk adv tk =>
        cases tk with
        | none => rfl
        | some tok =>
          simp only
          obtain ⟨h1, h2, _⟩ := scanLinesCR_some h
          have hd : (input.drop adv).length = input.length - adv := List.length_drop adv input
          rw [ih (g := g) (by omega) (by omega)]

theorem scannerRun_cons_of {maxTok adv : Nat} {input tok : List Nat}
    (h : scanLinesCR input true = (adv, some tok)) (hm : tok.length < maxTok) :
    scannerRun maxTok input = tok :: scannerRun maxTok (input.drop adv) := by
  obtain ⟨h1, h2, _⟩ := scanLinesCR_some h
  obtain ⟨m, hm'⟩ : ∃ m, input.length = m + 1 := ⟨input.length - 1, by omega⟩
  unfold scannerRun
  rw [hm']
  simp only [scannerRunFuel, h, hm, if_true]
  congr 1
  apply scannerRunFuel_congr
  · rw [List.length_drop]; omega
  · exact Nat.le_refl _

theorem scannerRun_nil_of_big {maxTok adv : Nat} {input tok : List Nat}
    (h : scanLinesCR input true = (adv, some tok)) (hm : ¬ tok.length < maxTok) :
    scannerRun maxTok input = [] := by
  obtain ⟨h1, h2, _⟩ := scanLinesCR_some h
  obtain ⟨m, hm'⟩ : ∃ m, input.length = m + 1 := ⟨input.length - 1, by omega⟩
  unfold scannerRun
  rw [hm']
  simp [scannerRunFuel, h, hm]

theorem scannerRun_nil_of_none {maxTok adv : Nat} {input : List Nat}
    (h : scanLinesCR input true = (adv, none)) :
    scannerRun maxTok input = [] := by
  cases input with
  | nil => rfl
  | cons b rest =>
    show scannerRunFuel maxTok (rest.length + 1) (b :: rest) = []
    simp [scannerRunFuel, h]

theorem specSegmentsFuel_nil (f : Nat) : specSegmentsFuel f [] = [] := by
  cases f with
  | zero => rfl
  | succ f => simp [specSegmentsFuel, scanLinesCR, findBoundary]

theorem specSegmentsFuel_congr :
    ∀ {f g : Nat} {input : List Nat}, input.length ≤ f → input.length ≤ g →
      specSegmentsFuel f input = specSegmentsFuel g input := by
  intro f
  induction f with
  | zero =>
    intro g input hf _
    have : input = [] := List.eq_nil_of_length_eq_zero (Nat.le_zero.mp hf)
    subst this
    rw [specSegmentsFuel_nil, specSegmentsFuel_nil]
  | succ f ih =>
    intro g input hf hg
    cases g with
    | zero =>
      have : input = [] := List.eq_nil_of_length_eq_zero (Nat.le_zero.mp hg)
      subst this
      rw [specSegmentsFuel_nil, specSegmentsFuel_nil]
    | succ g =>
      simp only [specSegmentsFuel]
      cases h : scanLinesCR input true with
      | mk adv tk =>
        cases tk with
        | none => rfl
        | some tok =>
          simp only
          obtain ⟨h1, h2, _⟩ := scanLinesCR_some h
          have hd : (input.drop adv).length = input.length - adv := List.length_drop adv input
          rw [ih (g := g) (by omega) (by omega)]

theorem specSegments_cons_of {adv : Nat} {input tok : List Nat}
    (h : scanLinesCR input true = (adv, some tok)) :
    specSegments input = tok :: specSegments (input.drop adv) := by
  obtain ⟨h1, h2, _⟩ := scanLinesCR_some h
  obtain ⟨m, hm'⟩ : ∃ m, input.length = m + 1 := ⟨input.length - 1, by omega⟩
  unfold specSegments
  rw [hm']
  simp only [specSegmentsFuel, h]
  congr 1
  apply specSegmentsFuel_congr
  · rw [List.length_drop]; omega
  · exact Nat.le_refl _

theorem specSegments_nil_of_none {adv : Nat} {input : List Nat}
    (h : scanLinesCR input true = (adv, none)) :
    specSegments input = [] := by
  cases input with
  | nil => rfl
  | cons b rest =>
    show specSegmentsFuel (rest.length + 1) (b :: rest) = []
    simp [specSegmentsFuel, h]

theorem scannerRunFuel_no_boundary {maxTok : Nat} :
    ∀ {f : Nat} {input t : List Nat}, t ∈ scannerRunFuel maxTok f input →
      ∀ b ∈ t, isBoundary b = false := by
  intro f
  induction f with
  | zero => intro input t ht; simp [scannerRunFuel] at ht
  | succ f ih =>
    intro input t ht
    cases h : scanLinesCR input true with
    | mk adv tk =>
      cases tk with
      | none => simp [scannerRunFuel, h] at ht
      | some tok =>
        simp only [scannerRunFuel, h] at ht
        by_cases hm : tok.length < maxTok
        · rw [if_pos hm] at ht
          rcases List.mem_cons.mp ht with rfl | ht2
          · exact scanLinesCR_tok_no_boundary h
          · exact ih ht2
        · rw [if_neg hm] at ht
          simp at ht

theorem scannerRun_no_boundary {maxTok : Nat} {input t : List Nat}
    (ht : t ∈ scannerRun maxTok input) : ∀ b ∈ t, isBoundary b = false :=
  scannerRunFuel_no_boundary ht

theorem scannerRun_prefix_spec (maxTok : Nat) :
    ∀ (n : Nat) (input : List Nat), input.length ≤ n →
      ∃ t, specSegments input = scannerRun maxTok input ++ t := by
  intro n
  induction n with
  | zero =>
    intro input h
    have hnil : input = [] := List.eq_nil_of_length_eq_zero (Nat.le_zero.mp h)
    subst hnil
    exact ⟨[], by simp [specSegments, specSegmentsFuel_nil, scannerRun, scannerRunFuel_nil]⟩
  | succ n ih =>
    intro input h
    cases hc : scanLinesCR input true with
    | mk adv tk =>
      cases tk with
      | none => exact ⟨[], by rw [specSegments_nil_of_none hc, scannerRun_nil_of_none hc]; simp⟩
      | some tok =>
        by_cases hm : tok.length < maxTok
        · obtain ⟨h1, h2, _⟩ := scanLinesCR_some hc
          obtain ⟨t, ht⟩ := ih (input.drop adv) (by rw [List.length_drop]; omega)
          exact ⟨t, by
            rw [specSegments_cons_of hc, scannerRun_cons_of hc hm, ht]; simp⟩
        · exact ⟨specSegments input, by rw [scannerRun_nil_of_big hc hm]; simp⟩

theorem scannerRun_eq_spec (maxTok : Nat) :
    ∀ (n : Nat) (input : List Nat), input.length ≤ n →
      (∀ s ∈ specSegments input, s.length < maxTok) →
      scannerRun maxTok input = specSegments input := by
  intro n
  induction n with
  | zero =>
    intro input h _
    have hnil : input = [] := List.eq_nil_of_length_eq_zero (Nat.le_zero.mp h)
    subst hnil
    simp [specSegments, specSegmentsFuel_nil, scannerRun, scannerRunFuel_nil]
  | succ n ih =>
    intro input h hs
    cases hc : scanLinesCR input true with
    | mk adv tk =>
      cases tk with
      | none => rw [specSegments_nil_of_none hc, scannerRun_nil_of_none hc]
      | some tok =>
        have hspec := specSegments_cons_of hc
        have htok : tok.length < maxTok := by
          apply hs tok
          rw [hspec]
          exact List.mem_cons_self _ _
        obtain ⟨h1, h2, h3⟩ := scanLinesCR_some hc
        rw [scannerRun_cons_of hc htok, hspec]
        congr 1
        apply ih (input.drop adv) (by rw [List.length_drop]; omega)
        intro s hsm
        apply hs s
        rw [hspec]
        exact List.mem_cons_of_mem _ hsm

theorem residue_scan (xs : List Nat) (hxs : ∀ b ∈ xs, isBoundary b = false)
    (hne : xs ≠ []) : scanLinesCR xs true = (xs.length, some xs) := by
  have hfb := findBoundary_none_of hxs
  have hlne : xs.length ≠ 0 := fun h0 => hne (List.eq_nil_of_length_eq_zero h0)
  unfold scanLinesCR
  rw [hfb]
  simp [hlne]

/-- C3 counterexample: the splitter does NOT flush every residual
unterminated segment at end of stream: a boundary-free stream of exactly
1048576 bytes is one single residual segment, yet zero chunks are emitted —
the buffer is full when the EOF-observing read would happen, the scanner
fails with ErrTooLong, and `streamReader` drops the residue entirely. -/
theorem c3_splitter_chunks_cex :
    specSegments (List.replicate (1024 * 1024) 97) = [List.replicate (1024 * 1024) 97] ∧
    streamReaderChunks (List.replicate (1024 * 1024) 97) = [] := by
  have hB : ∀ b ∈ List.replicate (1024 * 1024) 97, isBoundary b = false := by
    intro b hb
    rw [List.eq_of_mem_replicate hb]
    rfl
  have hL : (List.replicate (1024 * 1024) 97).length = 1024 * 1024 :=
    List.length_replicate _ _
  have hne : List.replicate (1024 * 1024) 97 ≠ [] := by
    intro h
    rw [h] at hL
    norm_num at hL
  have hscan := residue_scan _ hB hne
  constructor
  · rw [specSegments_cons_of hscan, List.drop_length]
    rfl
  · unfold streamReaderChunks
    rw [scannerRun_nil_of_big hscan (by rw [hL]; norm_num [maxTokenSize])]
    rfl

/-- C3 amended: the splitter splits on newline or carriage-return bytes,
consumes the boundary byte without including it in the chunk, appends
exactly one trailing newline to each emitted chunk, and flushes a residual
unterminated segment at end of stream as a final newline-normalized chunk
whenever the residue is strictly shorter than the one-megabyte scanner
buffer; a residue of one megabyte or more is silently dropped (ErrTooLong).
In particular the input "progress: 1%\rprogress: 2%\rdone\n" yields
exactly the three chunks "progress: 1%\n", "progress: 2%\n", "done\n". -/
theorem c3_splitter_chunks_amended :
    streamReaderChunks (strBytes "progress: 1%" ++ [13] ++ strBytes "progress: 2%" ++ [13] ++
        strBytes "done" ++ [10]) =
      [strBytes "progress: 1%" ++ [10], strBytes "progress: 2%" ++ [10],
        strBytes "done" ++ [10]] ∧
    (∀ input c, c ∈ streamReaderChunks input →
      ∃ t, c = t ++ [10] ∧ ∀ b ∈ t, isBoundary b = false) ∧
    (∀ xs : List Nat, (∀ b ∈ xs, isBoundary b = false) → xs ≠ [] →
      xs.length < maxTokenSize → streamReaderChunks xs = [xs ++ [10]]) ∧
    (∀ xs : List Nat, (∀ b ∈ xs, isBoundary b = false) →
      maxTokenSize ≤ xs.length → streamReaderChunks xs = []) := by
  refine ⟨by decide, ?_, ?_, ?_⟩
  · intro input c hc
    simp only [streamReaderChunks, List.mem_map] at hc
    obtain ⟨t, ht, rfl⟩ := hc
    exact ⟨t, rfl, scannerRun_no_boundary ht⟩
  · intro xs hxs hne hlen
    unfold streamReaderChunks
    rw [scannerRun_cons_of (residue_scan xs hxs hne) hlen, List.drop_length]
    simp [scannerRun, scannerRunFuel_nil]
  · intro xs hxs hlen
    have hne : xs ≠ [] := by
      intro h
      rw [h] at hlen
      norm_num [maxTokenSize] at hlen
    unfold streamReaderChunks
    rw [scannerRun_nil_of_big (residue_scan xs hxs hne) (by omega)]
    rfl

/-- C3 amended witness: the generic conjuncts evaluated on concrete
inputs: the chunk "done\n" decomposes as a boundary-free token plus one
newline; the short boundary-free residue "x" flushes as the single chunk
"x\n"; and a boundary-free one-megabyte residue is dropped. -/
theorem c3_splitter_chunks_amended_witness :
    (∃ t, strBytes "done" ++ [10] = t ++ [10] ∧ ∀ b ∈ t, isBoundary b = false) ∧
    streamReaderChunks (strBytes "x") = [strBytes "x" ++ [10]] ∧
    streamReaderChunks (List.replicate (1024 * 1024) 97) = [] := by
  refine ⟨c3_splitter_chunks_amended.2.1 (strBytes "done") (strBytes "done" ++ [10])
      (by decide),
    c3_splitter_chunks_amended.2.2.1 (strBytes "x") (by decide) (by decide)
      (by norm_num [strBytes, maxTokenSize]),
    c3_splitter_chunks_amended.2.2.2 (List.replicate (1024 * 1024) 97) ?_ ?_⟩
  · intro b hb
    rw [List.eq_of_mem_replicate hb]
    rfl
  · rw [List.length_replicate]
    norm_num [maxTokenSize]

/-- C10: a carriage-return/newline pair is treated as two boundaries:
the segment before the "\r" is emitted as one chunk and an extra empty
chunk "\n" is emitted for the zero-length segment between the two bytes;
in particular "a\r\n" yields exactly the chunks "a\n" and "\n". -/
theorem c10_crlf_two_chunks :
    streamReaderChunks (strBytes "a" ++ [13, 10]) = [strBytes "a" ++ [10], [10]] ∧
    ∀ xs ys : List Nat, (∀ b ∈ xs, isBoundary b = false) →
      xs.length + 1 ≤ maxTokenSize →
      streamReaderChunks (xs ++ 13 :: 10 :: ys) =
        (xs ++ [10]) :: [10] :: streamReaderChunks ys := by
  constructor
  · decide
  · intro xs ys hxs hlen
    have hfb : findBoundary (xs ++ 13 :: 10 :: ys) = some xs.length := by
      rw [findBoundary_append hxs]
      simp [findBoundary, isBoundary]
    have hc1 : scanLinesCR (xs ++ 13 :: 10 :: ys) true = (xs.length + 1, some xs) := by
      unfold scanLinesCR
      rw [hfb]
      simp only [List.take_left]
    have hdrop : (xs ++ 13 :: 10 :: ys).drop (xs.length + 1) = 10 :: ys := by
      rw [List.drop_append]
      rfl
    have hc2 : scanLinesCR (10 :: ys) true = (1, some []) := by
      unfold scanLinesCR
      simp [findBoundary, isBoundary]
    unfold streamReaderChunks
    rw [scannerRun_cons_of hc1 (by omega), hdrop,
      scannerRun_cons_of hc2 (by norm_num [maxTokenSize])]
    simp

/-- C10 witness: the generic CRLF conjunct evaluated at the concrete input
"ab\r\nc\n". -/
theorem c10_crlf_two_chunks_witness :
    streamReaderChunks (strBytes "ab" ++ 13 :: 10 :: strBytes "c\n") =
      (strBytes "ab" ++ [10]) :: [10] :: streamReaderChunks (strBytes "c\n") :=
  c10_crlf_two_chunks.2 (strBytes "ab") (strBytes "c\n") (by decide) (by decide)

/-- C9 counterexample: a stream whose segments are "a"*1048576 (terminated
by a newline) and "b" (terminated by a newline) — every segment at most one
megabyte — produces zero chunks: finding the first boundary would need
1048576+1 buffered bytes, the scanner stops with ErrTooLong, and
`streamReader` drops the whole stream.  No truncation or chunk-splitting
fallback is applied, refuting the claim that streams with segments up to
one megabyte lose no bytes. -/
theorem c9_cex_aux_seg (L : List Nat) (hB : ∀ b ∈ L, isBoundary b = false) :
    specSegments (L ++ [10, 98, 10]) = [L, [98]] ∧
    scanLinesCR (L ++ [10, 98, 10]) true = (L.length + 1, some L) := by
  have hfb : findBoundary (L ++ [10, 98, 10]) = some L.length := by
    rw [findBoundary_append hB]
    rw [show findBoundary [10, 98, 10] = some 0 from rfl]
    simp
  have hc1 : scanLinesCR (L ++ [10, 98, 10]) true = (L.length + 1, some L) := by
    unfold scanLinesCR
    rw [hfb]
    simp only [List.take_left]
  have hdrop : (L ++ [10, 98, 10]).drop (L.length + 1) = [98, 10] := by
    rw [List.drop_append]
    rfl
  have hrest : specSegments [98, 10] = [[98]] := by decide
  exact ⟨by rw [specSegments_cons_of hc1, hdrop, hrest], hc1⟩

theorem c9_cex_aux_chunks (L : List Nat) (hB : ∀ b ∈ L, isBoundary b = false)
    (hlen : maxTokenSize ≤ L.length) :
    streamReaderChunks (L ++ [10, 98, 10]) = [] := by
  unfold streamReaderChunks
  rw [scannerRun_nil_of_big (c9_cex_aux_seg L hB).2 (by omega)]
  rfl

/-- C9 counterexample: a stream whose segments are "a"*1048576 (terminated
by a newline) and "b" (terminated by a newline) — every segment at most one
megabyte — produces zero chunks: finding the first boundary would need
1048576+1 buffered bytes, the scanner stops with ErrTooLong, and
`streamReader` drops the whole stream.  No truncation or chunk-splitting
fallback is applied, refuting the claim that streams with segments up to
one megabyte lose no bytes. -/
theorem c9_buffer_bound_cex :
    specSegments (List.replicate (1024 * 1024) 97 ++ [10, 98, 10]) =
      [List.replicate (1024 * 1024) 97, [98]] ∧
    (∀ s ∈ specSegments (List.replicate (1024 * 1024) 97 ++ [10, 98, 10]),
      s.length ≤ 1024 * 1024) ∧
    streamReaderChunks (List.replicate (1024 * 1024) 97 ++ [10, 98, 10]) = [] := by
  have hB : ∀ b ∈ List.replicate (1024 * 1024) 97, isBoundary b = false := by
    intro b hb
    rw [List.eq_of_mem_replicate hb]
    rfl
  have hL : (List.replicate (1024 * 1024) 97).length = 1024 * 1024 :=
    List.length_replicate _ _
  refine ⟨(c9_cex_aux_seg _ hB).1, ?_, c9_cex_aux_chunks _ hB (by rw [hL]; norm_num [maxTokenSize])⟩
  intro s hs
  rw [(c9_cex_aux_seg _ hB).1] at hs
  rcases List.mem_cons.mp hs with rfl | hs2
  · exact Nat.le_of_eq hL
  · rcases List.mem_cons.mp hs2 with rfl | hs3
    · norm_num
    · exact absurd hs3 (List.not_mem_nil s)

/-- C9 amended: the scanner buffer is bounded at exactly one megabyte and
there is no truncation or chunk-splitting fallback: the emitted chunk
sequence is always an initial prefix of the stream's true segment sequence
(on overflow the reader stops, silently discarding the oversized segment
and all remaining input), and a stream whose every segment is strictly
shorter than one megabyte loses nothing — each segment is emitted as a
newline-normalized chunk. -/
theorem c9_buffer_bound_amended :
    ∀ input : List Nat,
      (∃ t, specSegments input = scannerRun maxTokenSize input ++ t) ∧
      ((∀ s ∈ specSegments input, s.length < maxTokenSize) →
        streamReaderChunks input = (specSegments input).map (fun s => s ++ [10])) := by
  intro input
  constructor
  · exact scannerRun_prefix_spec maxTokenSize input.length input (Nat.le_refl _)
  · intro hs
    unfold streamReaderChunks
    rw [scannerRun_eq_spec maxTokenSize input.length input (Nat.le_refl _) hs]

/-- C9 amended witness: the lossless conjunct evaluated at the concrete
stream "hi\nyo" (all segments far below the bound). -/
theorem c9_buffer_bound_amended_witness :
    streamReaderChunks (strBytes "hi\nyo") =
      (specSegments (strBytes "hi\nyo")).map (fun s => s ++ [10]) :=
  (c9_buffer_bound_amended (strBytes "hi\nyo")).2 (by decide)

theorem interleave_sublist_left {xs ys zs : List Event} (h : Interleave xs ys zs) :
    xs.Sublist zs := by
  induction h with
  | nil => exact List.Sublist.slnil
  | left _ ih => exact List.Sublist.cons₂ _ ih
  | right _ ih => exact List.Sublist.cons _ ih

theorem interleave_sublist_right {xs ys zs : List Event} (h : Interleave xs ys zs) :
    ys.Sublist zs := by
  induction h with
  | nil => exact List.Sublist.slnil
  | left _ ih => exact List.Sublist.cons _ ih
  | right _ ih => exact List.Sublist.cons₂ _ ih

theorem interleave_mem {xs ys zs : List Event} (h : Interleave xs ys zs) :
    ∀ z ∈ zs, z ∈ xs ∨ z ∈ ys := by
  induction h with
  | nil => intro z hz; exact absurd hz (List.not_mem_nil z)
  | left _ ih =>
    intro z hz
    rcases List.mem_cons.mp hz with rfl | hz2
    · exact Or.inl (List.mem_cons_self _ _)
    · rcases ih z hz2 with h1 | h2
      · exact Or.inl (List.mem_cons_of_mem _ h1)
      · exact Or.inr h2
  | right _ ih =>
    intro z hz
    rcases List.mem_cons.mp hz with rfl | hz2
    · exact Or.inr (List.mem_cons_self _ _)
    · rcases ih z hz2 with h1 | h2
      · exact Or.inl h1
      · exact Or.inr (List.mem_cons_of_mem _ h2)

theorem interleave_nil_right {xs zs : List Event} (h : Interleave xs [] zs) : zs = xs := by
  induction xs generalizing zs with
  | nil => cases h; rfl
  | cons x xs ih =>
    cases h with
    | left h2 => rw [ih h2]

theorem interleave_with_nil : ∀ xs : List Event, Interleave xs [] xs := by
  intro xs
  induction xs with
  | nil => exact Interleave.nil
  | cons x xs ih => exact Interleave.left ih

theorem streamEvents_mem {opID : String} {b : Bool} {input : List Nat} {e : Event}
    (he : e ∈ streamEvents opID b input) : ∃ d, e = Event.output opID d b := by
  simp only [streamEvents, List.mem_map] at he
  obtain ⟨c, _, rfl⟩ := he
  exact ⟨c, rfl⟩

/-- C2: for every successfully started operation (pipe or pty mode), the
emitted trace contains exactly one Complete event, it is the last event,
it carries the completion record computed after both stream readers have
drained, and every event before it is an Output event of the same
operation ID. -/
theorem c2_single_complete_after_outputs :
    ∀ (opID : String) (outB errB : List Nat) (w : WaitErr) (tr : List Event),
      pipeTrace opID outB errB w tr ∨ ptyTrace opID outB w tr →
      (tr.filter (fun e => e.isComplete)).length = 1 ∧
      ∃ l, tr = l ++ [Event.complete opID (completionRecord w).1 (completionRecord w).2] ∧
        ∀ e ∈ l, ∃ d b, e = Event.output opID d b := by
  intro opID outB errB w tr h
  have hmain : ∃ l,
      tr = l ++ [Event.complete opID (completionRecord w).1 (completionRecord w).2] ∧
      ∀ e ∈ l, ∃ d b, e = Event.output opID d b := by
    rcases h with ⟨l, hint, rfl⟩ | rfl
    · refine ⟨l, rfl, ?_⟩
      intro e he
      rcases interleave_mem hint e he with h1 | h2
      · obtain ⟨d, rfl⟩ := streamEvents_mem h1
        exact ⟨d, false, rfl⟩
      · obtain ⟨d, rfl⟩ := streamEvents_mem h2
        exact ⟨d, true, rfl⟩
    · refine ⟨streamEvents opID false outB, rfl, ?_⟩
      intro e he
      obtain ⟨d, rfl⟩ := streamEvents_mem he
      exact ⟨d, false, rfl⟩
  obtain ⟨l, htr, houts⟩ := hmain
  refine ⟨?_, l, htr, houts⟩
  rw [htr, List.filter_append]
  have hl : l.filter (fun e => e.isComplete) = [] := by
    apply List.filter_eq_nil_iff.mpr
    intro e he
    obtain ⟨d, b, rfl⟩ := houts e he
    simp [Event.isComplete]
  rw [hl]
  rfl

/-- C2 witness: the theorem applied to a concrete pty-mode operation with
empty output. -/
theorem c2_single_complete_after_outputs_witness :
    (([Event.complete "op-1234-1" 0 ""].filter (fun e => e.isComplete)).length = 1) ∧
    ∃ l, [Event.complete "op-1234-1" 0 ""] =
        l ++ [Event.complete "op-1234-1" (completionRecord WaitErr.ok).1
          (completionRecord WaitErr.ok).2] ∧
      ∀ e ∈ l, ∃ d b, e = Event.output "op-1234-1" d b :=
  c2_single_complete_after_outputs "op-1234-1" [] [] WaitErr.ok
    [Event.complete "op-1234-1" 0 ""] (Or.inr rfl)

/-- C4: in pipe mode each stream's chunks appear in the trace in stream
order (the per-stream event list is a sublist of the whole trace), and the
concrete command writing "a\n", "b\n", "c\n" to stdout and nothing to
stderr yields exactly three Output events in that order with
isStderr=false, followed by one Complete event with exitCode=0 and empty
errorMsg. -/
theorem c4_pipe_ordering :
    ∀ (opID : String) (outB errB : List Nat) (w : WaitErr) (tr : List Event),
      pipeTrace opID outB errB w tr →
      (streamEvents opID false outB).Sublist tr ∧
      (streamEvents opID true errB).Sublist tr ∧
      (outB = strBytes "a\nb\nc\n" → errB = [] → w = WaitErr.ok →
        tr = [Event.output opID (strBytes "a\n") false,
          Event.output opID (strBytes "b\n") false,
          Event.output opID (strBytes "c\n") false,
          Event.complete opID 0 ""]) := by
  intro opID outB errB w tr h
  obtain ⟨l, hint, rfl⟩ := h
  refine ⟨(interleave_sublist_left hint).trans (List.sublist_append_left _ _),
    (interleave_sublist_right hint).trans (List.sublist_append_left _ _), ?_⟩
  rintro rfl rfl rfl
  have herr : streamEvents opID true [] = [] := rfl
  rw [herr] at hint
  have hl := interleave_nil_right hint
  subst hl
  have hchunks : streamReaderChunks (strBytes "a\nb\nc\n") =
      [strBytes "a\n", strBytes "b\n", strBytes "c\n"] := by decide
  simp [streamEvents, hchunks, completionRecord]

/-- C4 witness: the theorem applied to the concrete "a\nb\nc\n" run. -/
theorem c4_pipe_ordering_witness :
    (streamEvents "op-1234-1" false (strBytes "a\nb\nc\n")).Sublist
      [Event.output "op-1234-1" (strBytes "a\n") false,
        Event.output "op-1234-1" (strBytes "b\n") false,
        Event.output "op-1234-1" (strBytes "c\n") false,
        Event.complete "op-1234-1" 0 ""] ∧
    [Event.output "op-1234-1" (strBytes "a\n") false,
      Event.output "op-1234-1" (strBytes "b\n") false,
      Event.output "op-1234-1" (strBytes "c\n") false,
      Event.complete "op-1234-1" 0 ""] =
    [Event.output "op-1234-1" (strBytes "a\n") false,
      Event.output "op-1234-1" (strBytes "b\n") false,
      Event.output "op-1234-1" (strBytes "c\n") false,
      Event.complete "op-1234-1" 0 ""] := by
  have hp : pipeTrace "op-1234-1" (strBytes "a\nb\nc\n") [] WaitErr.ok
      [Event.output "op-1234-1" (strBytes "a\n") false,
        Event.output "op-1234-1" (strBytes "b\n") false,
        Event.output "op-1234-1" (strBytes "c\n") false,
        Event.complete "op-1234-1" 0 ""] :=
    ⟨streamEvents "op-1234-1" false (strBytes "a\nb\nc\n"),
      interleave_with_nil _, by decide⟩
  have h := c4_pipe_ordering "op-1234-1" (strBytes "a\nb\nc\n") [] WaitErr.ok _ hp
  exact ⟨h.1, h.2.2 rfl rfl rfl⟩

theorem streamReaderAttempts_eq (opID : String) (b : Bool) :
    ∀ (o : List Bool) (cs : List (List Nat)),
      streamReaderAttempts opID b o cs = cs.map (fun c => Event.output opID c b) := by
  intro o cs
  induction cs generalizing o with
  | nil => cases o <;> rfl
  | cons c cs ih =>
    cases o with
    | nil => simp [streamReaderAttempts, ih]
    | cons ok rest => cases ok <;> simp [streamReaderAttempts, ih]

/-- C8: broadcast failures are swallowed and never abort the in-flight
command: whatever the success/failure pattern of the EmitOutput and
EmitComplete calls, the attempted event sequence of a reader is exactly the
full chunk sequence of its stream, and the possible traces of a pipe-mode
operation with transport failures are exactly the failure-free traces —
streaming continues and the finalization still attempts the single
Complete emission. -/
theorem c8_broadcast_failures_swallowed
    (opID : String) (isStderr : Bool) (oracle : List Bool) (input : List Nat)
    (outB errB : List Nat) (w : WaitErr) (o1 o2 : List Bool) (completeOk : Bool)
    (tr : List Event) :
    streamReaderAttempts opID isStderr oracle (streamReaderChunks input) =
      streamEvents opID isStderr input ∧
    (pipeTraceFaulty opID outB errB w o1 o2 completeOk tr ↔
      pipeTrace opID outB errB w tr) := by
  constructor
  · rw [streamReaderAttempts_eq]
    rfl
  · unfold pipeTraceFaulty pipeTrace
    rw [streamReaderAttempts_eq, streamReaderAttempts_eq]
    rfl

theorem toDigitsCore_eq_rep10 :
    ∀ (f n : Nat) (ds : List Char), n < f →
      Nat.toDigitsCore 10 f n ds = rep10 n ++ ds := by
  intro f
  induction f with
  | zero => intro n ds h; exact absurd h (Nat.not_lt_zero n)
  | succ f ih =>
    intro n ds h
    rw [rep10]
    simp only [Nat.toDigitsCore]
    by_cases h10 : n / 10 = 0
    · simp [h10]
    · rw [if_neg h10, if_neg h10]
      have hn : 0 < n := by
        rcases Nat.eq_zero_or_pos n with rfl | hp
        · simp at h10
        · exact hp
      have hlt : n / 10 < n := Nat.div_lt_self hn (by omega)
      rw [ih (n / 10) (Nat.digitChar (n % 10) :: ds) (by omega)]
      simp

theorem decimalVal_append_singleton (xs : List Char) (c : Char) :
    decimalVal (xs ++ [c]) = decimalVal xs * 10 + (c.toNat - 48) := by
  simp [decimalVal, List.foldl_append]

theorem digitChar_toNat_sub {d : Nat} (h : d < 10) : (Nat.digitChar d).toNat - 48 = d := by
  interval_cases d <;> rfl

theorem decimalVal_rep10 : ∀ n : Nat, decimalVal (rep10 n) = n := by
  intro n
  induction n using Nat.strong_induction_on with
  | _ n ih =>
    rw [rep10]
    have hmod : n % 10 < 10 := Nat.mod_lt n (by omega)
    by_cases h10 : n / 10 = 0
    · rw [if_pos h10]
      have hone : decimalVal [Nat.digitChar (n % 10)] =
          (Nat.digitChar (n % 10)).toNat - 48 := by
        simp [decimalVal]
      rw [hone, digitChar_toNat_sub hmod]
      have hdm := Nat.div_add_mod n 10
      omega
    · rw [if_neg h10]
      have hn : 0 < n := by
        rcases Nat.eq_zero_or_pos n with rfl | hp
        · simp at h10
        · exact hp
      have hlt : n / 10 < n := Nat.div_lt_self hn (by omega)
      rw [decimalVal_append_singleton, ih (n / 10) hlt, digitChar_toNat_sub hmod]
      have hdm := Nat.div_add_mod n 10
      omega

theorem rep10_injective {m n : Nat} (h : rep10 m = rep10 n) : m = n := by
  have hm := decimalVal_rep10 m
  have hn := decimalVal_rep10 n
  rw [← hm, ← hn, h]

theorem nat_repr_injective {m n : Nat} (h : Nat.repr m = Nat.repr n) : m = n := by
  have hm : Nat.toDigits 10 m = rep10 m := by
    unfold Nat.toDigits
    rw [toDigitsCore_eq_rep10 (m + 1) m [] (Nat.lt_succ_self m)]
    simp
  have hn : Nat.toDigits 10 n = rep10 n := by
    unfold Nat.toDigits
    rw [toDigitsCore_eq_rep10 (n + 1) n [] (Nat.lt_succ_self n)]
    simp
  have h2 : Nat.toDigits 10 m = Nat.toDigits 10 n := congrArg String.data h
  rw [hm, hn] at h2
  exact rep10_injective h2

theorem generateOperationID_inj {pid a b : Nat}
    (h : GenerateOperationID pid a = GenerateOperationID pid b) : a = b := by
  unfold GenerateOperationID at h
  have h2 := congrArg String.data h
  simp only [String.data_append] at h2
  have h3 := List.append_cancel_left h2
  exact nat_repr_injective (String.ext h3)

theorem mod_inj_of_le {U m n : Nat} (hm1 : 1 ≤ m) (hm2 : m ≤ U)
    (hn1 : 1 ≤ n) (hn2 : n ≤ U) (h : m % U = n % U) : m = n := by
  rcases Nat.lt_or_ge m U with hm | hm
  · rcases Nat.lt_or_ge n U with hn | hn
    · rwa [Nat.mod_eq_of_lt hm, Nat.mod_eq_of_lt hn] at h
    · have hnU : n = U := Nat.le_antisymm hn2 hn
      subst hnU
      rw [Nat.mod_eq_of_lt hm, Nat.mod_self] at h
      omega
  · have hmU : m = U := Nat.le_antisymm hm2 hm
    rcases Nat.lt_or_ge n U with hn | hn
    · rw [hmU, Nat.mod_self, Nat.mod_eq_of_lt hn] at h
      omega
    · rw [hmU, Nat.le_antisymm hn2 hn]

/-- C5 counterexample: because the counter is a `uint64` that wraps at
`2^64`, the claim "for any number N ≥ 1 of calls the returned identifiers
are pairwise distinct" fails: within one process (fixed pid), call number 1
and call number `2^64 + 1` both receive counter value 1 and return the very
same identifier string. -/
theorem c5_opid_unique_cex :
    ¬ ∀ (pid m n : Nat), 1 ≤ m → 1 ≤ n → m ≠ n → opIDAtCall pid m ≠ opIDAtCall pid n := by
  intro h
  apply h 1234 1 (2 ^ 64 + 1) (by norm_num) (by norm_num) (by norm_num)
  unfold opIDAtCall
  congr 1

/-- C5 amended: identifiers returned by distinct calls are pairwise
distinct as long as at most `2^64` calls are made within the process
lifetime (the `uint64` counter then hands every call a distinct value, and
the formatted string determines the counter value uniquely for a fixed
process id). -/
theorem c5_opid_unique_amended :
    ∀ (pid m n : Nat), 1 ≤ m → m ≤ uint64Size → 1 ≤ n → n ≤ uint64Size → m ≠ n →
      opIDAtCall pid m ≠ opIDAtCall pid n := by
  intro pid m n hm1 hm2 hn1 hn2 hne heq
  apply hne
  unfold opIDAtCall at heq
  have hcv := generateOperationID_inj heq
  unfold counterValue at hcv
  exact mod_inj_of_le hm1 hm2 hn1 hn2 hcv

/-- C5 amended witness: the first two calls of process 1234 return
distinct identifiers. -/
theorem c5_opid_unique_amended_witness :
    opIDAtCall 1234 1 ≠ opIDAtCall 1234 2 :=
  c5_opid_unique_amended 1234 1 2 (by norm_num) (by norm_num [uint64Size])
    (by norm_num) (by norm_num [uint64Size]) (by norm_num)

/-- C1 counterexample: a process killed by a signal makes `cmd.Wait()`
return an `*exec.ExitError` whose `ExitCode()` is `-1`; that branch leaves
`errorMsg` empty, so the completion record is `(-1, "")` — refuting
"whenever exitCode = -1 the errorMessage is non-empty". -/
theorem c1_exit_code_cex :
    ¬ ∀ w : WaitErr, w.valid →
        (completionRecord w).1 = -1 → (completionRecord w).2 ≠ "" := by
  intro h
  exact h (WaitErr.exitError (-1) "signal: killed") ⟨Or.inr rfl, by decide⟩ rfl rfl

/-- C1 amended: exitCode = 0 exactly for a clean exit;
a positive exitCode is the process's own reported status, always with empty
errorMessage; a non-empty errorMessage implies exitCode = -1 (it arises
only from non-ExitError wait failures); but exitCode = -1 can also come
with an EMPTY errorMessage, namely when the process terminates through an
ExitError with no native exit status (killed by a signal). -/
theorem c1_exit_code_amended :
    ∀ w : WaitErr, w.valid →
      ((completionRecord w).1 = 0 ↔ w = WaitErr.ok) ∧
      ((completionRecord w).1 = 0 → (completionRecord w).2 = "") ∧
      (0 < (completionRecord w).1 → (completionRecord w).2 = "") ∧
      ((completionRecord w).2 ≠ "" → (completionRecord w).1 = -1) ∧
      ((completionRecord w).1 = -1 →
        (∃ m, w = WaitErr.otherError m ∧ (completionRecord w).2 = m ∧ m ≠ "") ∨
        (∃ m, w = WaitErr.exitError (-1) m ∧ (completionRecord w).2 = "")) := by
  intro w hv
  cases w with
  | ok =>
    refine ⟨by simp [completionRecord], fun _ => rfl, fun _ => rfl,
      fun h => absurd rfl h, fun h => absurd h (by decide)⟩
  | exitError code msg =>
    obtain ⟨hc, _⟩ := hv
    refine ⟨?_, fun _ => rfl, fun _ => rfl, fun h => absurd rfl h, ?_⟩
    · constructor
      · intro h
        simp [completionRecord] at h
        omega
      · intro h
        exact WaitErr.noConfusion h
    · intro h
      simp [completionRecord] at h
      right
      exact ⟨msg, by rw [h], rfl⟩
  | otherError msg =>
    refine ⟨?_, ?_, ?_, fun _ => rfl, fun _ => Or.inl ⟨msg, rfl, rfl, hv⟩⟩
    · constructor
      · intro h
        simp [completionRecord] at h
      · intro h
        exact WaitErr.noConfusion h
    · intro h
      simp [completionRecord] at h
    · intro h
      simp [completionRecord] at h

/-- C1 amended witness: a command exiting with status 3 yields the
completion record (3, "") — empty errorMessage for a reported failure. -/
theorem c1_exit_code_amended_witness :
    (completionRecord (WaitErr.exitError 3 "exit status 3")).2 = "" :=
  (c1_exit_code_amended (WaitErr.exitError 3 "exit status 3")
    ⟨Or.inl (by norm_num), by decide⟩).2.2.1 (by decide)

/-- C6 counterexample: for `RunCommandStreamingSync`, a spawn failure does
NOT withhold the OperationID from the caller: every early failure return is
`return operationID, -1, err`, handing back the freshly generated
(non-empty) identifier together with the synchronous error — refuting "no
OperationID is produced to the caller". -/
theorem c6_spawn_failure_cex :
    (runCommandStreamingSyncResult (GenerateOperationID 1234 1)
      (SpawnOutcome.startErr
        "exec: \"nonexistent\": executable file not found in $PATH")).1 =
      GenerateOperationID 1234 1 ∧
    GenerateOperationID 1234 1 ≠ "" :=
  ⟨rfl, by decide⟩

/-- C6 amended: every spawn failure returns a synchronous error and emits
zero Output and zero Complete events, and the async pipe runner returns the
empty string instead of an OperationID — but the sync runner returns the
already-generated OperationID (with exit code -1) alongside the error. -/
theorem c6_spawn_failure_amended :
    ∀ (opID : String) (s : SpawnOutcome), s.isFailure →
      (∃ m, runCommandStreamingResult opID s = ("", some m)) ∧
      (∀ tr, runCommandStreamingEvents opID s tr → tr = []) ∧
      (runCommandStreamingSyncResult opID s).1 = opID ∧
      (runCommandStreamingSyncResult opID s).2.1 = -1 ∧
      (∃ m, (runCommandStreamingSyncResult opID s).2.2 = some m) ∧
      (∀ tr, runCommandStreamingSyncEvents opID s tr → tr = []) := by
  intro opID s hf
  cases s with
  | stdoutPipeErr msg => exact ⟨⟨_, rfl⟩, fun tr h => h, rfl, rfl, ⟨_, rfl⟩, fun tr h => h⟩
  | stderrPipeErr msg => exact ⟨⟨_, rfl⟩, fun tr h => h, rfl, rfl, ⟨_, rfl⟩, fun tr h => h⟩
  | startErr msg => exact ⟨⟨_, rfl⟩, fun tr h => h, rfl, rfl, ⟨_, rfl⟩, fun tr h => h⟩
  | started outB errB w => exact hf.elim

/-- C6 amended witness: the amended theorem at a concrete failed start. -/
theorem c6_spawn_failure_amended_witness :
    (runCommandStreamingSyncResult "op-1234-1" (SpawnOutcome.startErr "boom")).1 =
      "op-1234-1" ∧
    (∃ m, runCommandStreamingResult "op-1234-1" (SpawnOutcome.startErr "boom") =
      ("", some m)) := by
  have h := c6_spawn_failure_amended "op-1234-1" (SpawnOutcome.startErr "boom") trivial
  exact ⟨h.2.2.1, h.1⟩

/-- C7 counterexample: after `Stop()` has closed `stopChan`, a
`WaitForOperation` run can still return a buffered matching Complete result
instead of the stopped sentinel, because Go's `select` chooses uniformly
among ready cases and the buffered-signal case is also ready — refuting
"any subsequent WaitForOperation returns the stopped sentinel". -/
theorem c7_stop_sentinel_cex :
    ¬ ∀ (op : String) (sigs : List DSignal) (outs : List (String × Bool))
        (res : Int × String),
        WaitRun op true sigs outs res → res = (-1, "receiver stopped") := by
  intro h
  have hm : matchesComplete "op-1234-1"
      ⟨objectPathConst, completeSignalName, SigBody.completeBody "op-1234-1" 5 "boom"⟩ =
      some (5, "boom") := by decide
  have hw : WaitRun "op-1234-1" true
      [⟨objectPathConst, completeSignalName, SigBody.completeBody "op-1234-1" 5 "boom"⟩]
      [] ((5 : Int), "boom") := WaitRun.completeRet hm
  exact absurd (h _ _ _ _ hw) (by decide)

/-- C7 amended: `Stop()` is effective at most once (a second call leaves
the state unchanged), and after `Stop()` a wait never blocks — the stopped
sentinel return is available at every step, and every possible run returns
either the sentinel or the result of a buffered matching Complete signal
that the select drained first. -/
theorem c7_stop_amended :
    ∀ (r : ReceiverState) (op : String) (sigs : List DSignal),
      ReceiverState.stop (ReceiverState.stop r) = ReceiverState.stop r ∧
      (r.stopped = true → ReceiverState.stop r = r) ∧
      WaitRun op true sigs [] (-1, "receiver stopped") ∧
      (∀ outs res, WaitRun op true sigs outs res →
        res = (-1, "receiver stopped") ∨
        ∃ sig ∈ sigs, matchesComplete op sig = some res) := by
  intro r op sigs
  have main : ∀ (st : Bool) (sigs2 : List DSignal) (outs : List (String × Bool))
      (res : Int × String), WaitRun op st sigs2 outs res →
      res = (-1, "receiver stopped") ∨
      ∃ sig ∈ sigs2, matchesComplete op sig = some res := by
    intro st sigs2 outs res hw
    induction hw with
    | stopRet s2 => exact Or.inl rfl
    | completeRet hm => exact Or.inr ⟨_, List.mem_cons_self _ _, hm⟩
    | outputStep hm hw2 ih =>
      rcases ih with h1 | ⟨sig2, hmem, hm2⟩
      · exact Or.inl h1
      · exact Or.inr ⟨sig2, List.mem_cons_of_mem _ hmem, hm2⟩
    | skipStep hm1 hm2 hw2 ih =>
      rcases ih with h1 | ⟨sig2, hmem, hm2⟩
      · exact Or.inl h1
      · exact Or.inr ⟨sig2, List.mem_cons_of_mem _ hmem, hm2⟩
  refine ⟨?_, ?_, WaitRun.stopRet sigs, fun outs res hw => main true sigs outs res hw⟩
  · unfold ReceiverState.stop
    by_cases hs : r.stopped
    · simp [hs]
    · simp [hs]
  · intro hs
    unfold ReceiverState.stop
    simp [hs]

/-- C7 amended witness: the amended theorem applied to an already-stopped
receiver with an empty signal buffer. -/
theorem c7_stop_amended_witness :
    ReceiverState.stop (ReceiverState.mk true true false) =
      ReceiverState.mk true true false ∧
    WaitRun "op-1234-1" true [] [] (-1, "receiver stopped") ∧
    (((-1 : Int), "receiver stopped") = (-1, "receiver stopped") ∨
      ∃ sig ∈ ([] : List DSignal),
        matchesComplete "op-1234-1" sig = some (-1, "receiver stopped")) := by
  have h := c7_stop_amended (ReceiverState.mk true true false) "op-1234-1" []
  exact ⟨h.2.1 rfl, h.2.2.1, h.2.2.2 [] _ h.2.2.1⟩

end Streaming
